import Mathlib

/-!
Shallow embedding of the Program-Point Navigation & Synchronized Overlay
subsystem of the MIR visualization tool:

* `filterNodesAndEdges` — graph filter (src mir_graph module);
* `isStorageStmt` — storage-statement predicate (components/BasicBlockTable.tsx);
* `isSelectable`, `getNextStmtIdx`, `step` — the keyboard navigation engine
  (`handleKeyDown` in src/visualization/src/script.tsx);
* `fetchPathData`, `onPathDataResponse` — the per-point overlay fetch effect
  (src/visualization/src/script.tsx) split into its synchronous issue-time
  decision and its asynchronous completion continuation.

Machine numbers of the TypeScript source are modelled as `Nat` (block ids,
indices into paths) and `Int` (statement scan indices, which go below zero
during scanning).
-/

namespace PCS

/-- Node of the per-function MIR graph, as served in `mir.json`
(`MirGraphNode` in the source). -/
structure MirGraphNode where
  id : String
  block : Nat
  stmts : List String
  terminator : String
deriving DecidableEq

/-- Edge of the per-function MIR graph (`MirGraphEdge` in the source). -/
structure MirGraphEdge where
  source : String
  target : String
  label : String
deriving DecidableEq

/-- Filter configuration (`FilterOptions` in the source):
`path = none` models the TypeScript `path: null`. -/
structure FilterOptions where
  showUnwindEdges : Bool
  path : Option (List Nat)
deriving DecidableEq

/-- Edge predicate of the path-restriction branch of `filterNodesAndEdges`
(the lambda passed to `filteredEdges.filter`, hoisted to a named function):
keep an edge iff both endpoint ids are found among `nodes` and both endpoint
blocks lie on `path`. -/
def edgeOnPath (nodes : List MirGraphNode) (path : List Nat)
    (edge : MirGraphEdge) : Bool :=
  match nodes.find? (fun n => n.id == edge.source),
        nodes.find? (fun n => n.id == edge.target) with
  | Option.some sourceNode, Option.some targetNode =>
      path.contains sourceNode.block && path.contains targetNode.block
  | _, _ => false

/-- Graph filter, translated from `filterNodesAndEdges`:
when unwind edges are hidden, nodes with a `resume` terminator and edges
labelled `unwind` are removed; when a path is set, nodes are restricted to
path blocks and edges to those whose endpoints — looked up in the ORIGINAL
`nodes` argument, exactly as in the source — have blocks on the path. -/
def filterNodesAndEdges (nodes : List MirGraphNode) (edges : List MirGraphEdge)
    (options : FilterOptions) : List MirGraphNode × List MirGraphEdge :=
  let filteredNodes :=
    if !options.showUnwindEdges then
      nodes.filter (fun node => node.terminator != "resume")
    else nodes
  let filteredEdges :=
    if !options.showUnwindEdges then
      edges.filter (fun edge => edge.label != "unwind")
    else edges
  match options.path with
  | Option.none => (filteredNodes, filteredEdges)
  | Option.some path =>
    (filteredNodes.filter (fun node => path.contains node.block),
     filteredEdges.filter (edgeOnPath nodes path))

/-- Prefix test on strings, written on the character lists so that it
computes by kernel reduction; it models `String.prototype.startsWith`. -/
def strStartsWith (s pre : String) : Bool :=
  pre.toList.isPrefixOf s.toList

/-- Storage-statement predicate from `components/BasicBlockTable.tsx`:
a statement is a storage statement iff its text starts with `StorageLive`
or `StorageDead`. -/
def isStorageStmt (stmt : String) : Bool :=
  strStartsWith stmt "StorageLive" || strStartsWith stmt "StorageDead"

/-- Current program point (`CurrentPoint` in types.ts): `stmt` is an `Int`
because the navigation scan works with indices that may leave `[0, N]`. -/
structure CurrentPoint where
  block : Nat
  stmt : Int
deriving DecidableEq

/-- Result of one `handleKeyDown` step: in the source the object literal's
`stmt` field can be `null` (the cross-block downward branch stores the raw
result of `getNextStmtIdx`), hence `Option Int`. -/
structure NextPoint where
  block : Nat
  stmt : Option Int
deriving DecidableEq

/-- Navigation direction (the `direction` local of `handleKeyDown`). -/
inductive Dir where
  | up
  | down
deriving DecidableEq

/-- Opposite direction. -/
def Dir.opposite : Dir → Dir
  | .up => .down
  | .down => .up

/-- Selectability of position `idx` of a block (the `isSelectable` closure in
`handleKeyDown`): always selectable when storage statements are shown or at
the terminator position `stmts.length`; otherwise a statement is selectable
iff it is not a storage statement. The source only evaluates
`node.stmts[idx]` for `0 ≤ idx < stmts.length`, so the `getD` default is
never reached at those call sites. -/
def isSelectable (showStorageStmts : Bool) (node : MirGraphNode) (idx : Int) : Bool :=
  if showStorageStmts || idx == (node.stmts.length : Int) then true
  else !isStorageStmt (node.stmts.getD idx.toNat "")

/-- Body of the `while (idx >= 0 && idx <= node.stmts.length)` scan loop of
`getNextStmtIdx`, downward leg (offset `+1`). The `fuel` argument only makes
the recursion structural; `scanDown` below supplies enough fuel for the loop
to run to its guard exit, and `scanDown_eq` recovers the loop's recurrence. -/
def scanDownAux (showStorageStmts : Bool) (node : MirGraphNode) :
    Nat → Int → Option Int
  | 0, _ => none
  | fuel + 1, idx =>
    if 0 ≤ idx ∧ idx ≤ (node.stmts.length : Int) then
      if isSelectable showStorageStmts node idx then some idx
      else scanDownAux showStorageStmts node fuel (idx + 1)
    else none

/-- Downward scan from `idx` (inclusive): first selectable position
`≥ max idx 0` within `[0, stmts.length]`. -/
def scanDown (showStorageStmts : Bool) (node : MirGraphNode) (idx : Int) : Option Int :=
  scanDownAux showStorageStmts node (((node.stmts.length : Int) + 1 - idx).toNat) idx

/-- Body of the same scan loop, upward leg (offset `-1`). -/
def scanUpAux (showStorageStmts : Bool) (node : MirGraphNode) :
    Nat → Int → Option Int
  | 0, _ => none
  | fuel + 1, idx =>
    if 0 ≤ idx ∧ idx ≤ (node.stmts.length : Int) then
      if isSelectable showStorageStmts node idx then some idx
      else scanUpAux showStorageStmts node fuel (idx - 1)
    else none

/-- Upward scan from `idx` (inclusive): first selectable position
`≤ idx` within `[0, stmts.length]`. -/
def scanUp (showStorageStmts : Bool) (node : MirGraphNode) (idx : Int) : Option Int :=
  scanUpAux showStorageStmts node (idx + 1).toNat idx

/-- The `getNextStmtIdx` closure of `handleKeyDown`: starting one step away
from `start` in the given direction, return the first selectable position in
`[0, stmts.length]`, or `none` when the scan leaves that range. -/
def getNextStmtIdx (showStorageStmts : Bool) (node : MirGraphNode) (dir : Dir)
    (start : Int) : Option Int :=
  match dir with
  | .up => scanUp showStorageStmts node (start - 1)
  | .down => scanDown showStorageStmts node (start + 1)

/-- Placeholder node used to model a JavaScript out-of-range array access in
`filteredNodes[nextBlockIdx]`; reachable only when `filteredNodes` is empty. -/
def defaultNode : MirGraphNode := ⟨"", 0, [], ""⟩

/-- One arrow-key step of `handleKeyDown` (script.tsx): look up the current
block in the full node list (`return prevPoint` when absent), try a
within-block scan, and otherwise cross to the adjacent block of the
displayed (`filteredNodes`) ordering — forward wraparound `(i+1) % count`
going down (entering at the first selectable position scanning up from
`-1`), backward wraparound `(i-1+count) % count` going up (entering at the
terminator). `findIdx` is converted to the JavaScript `findIndex` value
`-1` when the block is not displayed. -/
def step (nodes : List MirGraphNode) (filteredNodes : List MirGraphNode)
    (showStorageStmts : Bool) (dir : Dir) (prevPoint : CurrentPoint) : NextPoint :=
  match nodes.find? (fun node => node.block == prevPoint.block) with
  | Option.none => ⟨prevPoint.block, some prevPoint.stmt⟩
  | Option.some currentNode =>
    match getNextStmtIdx showStorageStmts currentNode dir prevPoint.stmt with
    | some nextStmtIdx => ⟨prevPoint.block, some nextStmtIdx⟩
    | Option.none =>
      let i := filteredNodes.findIdx (fun node => node.block == prevPoint.block)
      let currBlockIdx : Int := if i = filteredNodes.length then -1 else (i : Int)
      match dir with
      | .down =>
        let nextBlockIdx := (currBlockIdx + 1) % (filteredNodes.length : Int)
        let data := filteredNodes.getD nextBlockIdx.toNat defaultNode
        ⟨data.block, getNextStmtIdx showStorageStmts data .down (-1)⟩
      | .up =>
        let nextBlockIdx :=
          (currBlockIdx - 1 + (filteredNodes.length : Int)) % (filteredNodes.length : Int)
        let data := filteredNodes.getD nextBlockIdx.toNat defaultNode
        ⟨data.block, some (data.stmts.length : Int)⟩

/-- Place that may carry an `old` snapshot marker (`MaybeOldPlace` in types.ts). -/
structure MaybeOldPlace where
  place : String
  before : Option String
deriving DecidableEq

/-- Borrow record (`Borrow` in types.ts). -/
structure Borrow where
  assigned_place : MaybeOldPlace
  borrowed_place : MaybeOldPlace
  is_mut : Bool
  kind : String
deriving DecidableEq

/-- Reborrow record (`Reborrow` in types.ts). -/
structure Reborrow where
  blocked_place : MaybeOldPlace
  assigned_place : MaybeOldPlace
  is_mut : Bool
deriving DecidableEq

/-- Tag of a borrow action (`"AddBorrow" | "RemoveBorrow"` in types.ts). -/
inductive BorrowActionKind where
  | AddBorrow
  | RemoveBorrow
deriving DecidableEq

/-- Borrow delta (`BorrowAction` in types.ts). -/
structure BorrowAction where
  action : BorrowActionKind
  borrow : Borrow
deriving DecidableEq

/-- Place expansion (`PlaceExpand` in types.ts). -/
structure PlaceExpand where
  base : MaybeOldPlace
  expansion : List String
deriving DecidableEq

/-- Reborrow bridge (`ReborrowBridge` in types.ts). -/
structure ReborrowBridge where
  expands : List PlaceExpand
  added_reborrows : List Reborrow
deriving DecidableEq

/-- Heap entry: value and type of a symbolic location (types.ts heap record). -/
structure HeapEntry where
  value : String
  ty : String
deriving DecidableEq

/-- Nested `borrows` object of `PathData` (types.ts). -/
structure Borrows where
  borrows : List Borrow
deriving DecidableEq

/-- Per-point overlay bundle (`PathData` in types.ts); the heap record is
modelled as an association list. -/
structure PathData where
  heap : List (String × HeapEntry)
  pcs : List String
  borrow_actions_start : List BorrowAction
  borrow_actions_mid : List BorrowAction
  reborrow_start : ReborrowBridge
  reborrow_middle : Option ReborrowBridge
  borrows : Borrows
  repacks_middle : List String
  repacks_start : List String
deriving DecidableEq

/-- Overlay bundle whose only populated field is a path-condition list; used
to build concrete, distinguishable bundles in the theorems below. -/
def bundleWithPcs (pcs : List String) : PathData :=
  ⟨[], pcs, [], [], ⟨[], []⟩, Option.none, ⟨[]⟩, [], []⟩

/-- Synchronous outcome of one run of the `fetchPathData` effect body
(script.tsx): either it returns early with no state change, or it clears the
displayed bundle (`setPathData(null)`), or it issues `getPathData` with the
given key `(function, path prefix, stmt)`. -/
inductive FetchAction where
  | noop
  | clear
  | request (functionName : String) (pathToCurrentBlock : List Nat) (stmt : Int)
deriving DecidableEq

/-- Issue-time decision of `fetchPathData` (script.tsx): bail out on an
invalid path selection; clear the bundle when the current block does not
occur on the selected path (JavaScript `indexOf` returning `-1`); otherwise
request the bundle for the path truncated just after the current block's
first occurrence (`slice(0, currentBlockIndex + 1)`). -/
def fetchPathData (selectedFunction : String) (paths : List (List Nat))
    (selectedPath : Nat) (currentPoint : CurrentPoint) : FetchAction :=
  if paths.length = 0 ∨ selectedPath ≥ paths.length then .noop
  else
    let currentPath := paths.getD selectedPath []
    let currentBlockIndex : Int :=
      if currentPath.contains currentPoint.block then
        (currentPath.indexOf currentPoint.block : Int)
      else -1
    if currentBlockIndex == -1 then .clear
    else
      .request selectedFunction
        (currentPath.take (currentBlockIndex.toNat + 1)) currentPoint.stmt

/-- Displayed-bundle change performed synchronously at issue time: the
`clear` branch runs `setPathData(null)` before returning; the other branches
leave the bundle untouched until a response arrives. -/
def applyFetchActionSync (pathData : Option PathData) (a : FetchAction) :
    Option PathData :=
  match a with
  | .clear => Option.none
  | _ => pathData

/-- Continuation of `await getPathData(...)` inside the `try`/`catch` of
`fetchPathData` (script.tsx): a resolved request installs its result with
`setPathData(data)` unconditionally — there is no check that the request is
still the most recently issued one — and a failed request only logs
(`console.error`), leaving the displayed bundle unchanged. -/
def onPathDataResponse (pathData : Option PathData)
    (outcome : Except Unit PathData) : Option PathData :=
  match outcome with
  | .ok data => some data
  | .error _ => pathData

/-- Three-block function graph of the navigation scenario: blocks `0`, `1`,
`2` in display order, block `1` with two statements. -/
def c6Nodes : List MirGraphNode :=
  [⟨"bb0", 0, ["a0"], "goto"⟩, ⟨"bb1", 1, ["b0", "b1"], "goto"⟩,
   ⟨"bb2", 2, ["c0"], "return"⟩]

/-- Single block whose middle statement is a storage statement. -/
def c7Node : MirGraphNode := ⟨"bb0", 0, ["a", "StorageLive(x)", "b"], "goto"⟩

/-- Two-block graph where block `0` ends in a `resume` terminator and a
non-unwind edge leaves it. -/
def c2Nodes : List MirGraphNode :=
  [⟨"bb0", 0, [], "resume"⟩, ⟨"bb1", 1, [], "return"⟩]

/-- A single edge out of the resume block, not labelled `unwind`. -/
def c2Edges : List MirGraphEdge := [⟨"bb0", "bb1", "goto"⟩]

/-- Filter configuration with unwind hiding on and a path restriction. -/
def c2Options : FilterOptions := ⟨false, some [0, 1]⟩

/-- Two-block graph with a non-unwind edge into a `resume`-terminated block. -/
def c3Nodes : List MirGraphNode :=
  [⟨"bb0", 0, [], "return"⟩, ⟨"bb1", 1, [], "resume"⟩]

/-- A single non-unwind edge whose target is the resume block. -/
def c3Edges : List MirGraphEdge := [⟨"bb0", "bb1", "goto"⟩]

/-- Filter configuration with unwind hiding on and no path restriction. -/
def c3Options : FilterOptions := ⟨false, Option.none⟩

/-! Helper lemmas about the scan loop. -/

/-- The terminator position `stmts.length` is selectable under every filter
configuration. -/
lemma isSelectable_terminator (showStorageStmts : Bool) (node : MirGraphNode) :
    isSelectable showStorageStmts node (node.stmts.length : Int) = true := by
  simp [isSelectable]

/-- Soundness of the downward scan body: a returned index lies in
`[max idx 0, stmts.length]`, is selectable, and every skipped index is not. -/
lemma scanDownAux_some {showStorageStmts : Bool} {node : MirGraphNode} :
    ∀ {fuel : Nat} {i j : Int},
      scanDownAux showStorageStmts node fuel i = some j →
      0 ≤ i ∧ i ≤ j ∧ j ≤ (node.stmts.length : Int) ∧
      isSelectable showStorageStmts node j = true ∧
      ∀ k : Int, i ≤ k → k < j → isSelectable showStorageStmts node k = false := by
  intro fuel
  induction fuel with
  | zero => intro i j h; simp [scanDownAux] at h
  | succ fuel ih =>
    intro i j h
    simp only [scanDownAux] at h
    split at h
    case isTrue hg =>
      by_cases hsel : isSelectable showStorageStmts node i = true
      · rw [if_pos hsel] at h
        obtain rfl : i = j := by simpa using h
        exact ⟨hg.1, le_refl _, hg.2, hsel, fun k h1 h2 => absurd (lt_of_le_of_lt h1 h2) (lt_irrefl _)⟩
      · rw [if_neg hsel] at h
        obtain ⟨h0, h1, h2, h3, h4⟩ := ih h
        refine ⟨hg.1, by omega, h2, h3, ?_⟩
        intro k hk1 hk2
        rcases eq_or_lt_of_le hk1 with rfl | hk1'
        · exact Bool.not_eq_true _ ▸ hsel
        · exact h4 k (by omega) hk2
    case isFalse hg => simp at h

/-- Soundness of the upward scan body. -/
lemma scanUpAux_some {showStorageStmts : Bool} {node : MirGraphNode} :
    ∀ {fuel : Nat} {i j : Int},
      scanUpAux showStorageStmts node fuel i = some j →
      0 ≤ j ∧ j ≤ i ∧ i ≤ (node.stmts.length : Int) ∧
      isSelectable showStorageStmts node j = true ∧
      ∀ k : Int, j < k → k ≤ i → isSelectable showStorageStmts node k = false := by
  intro fuel
  induction fuel with
  | zero => intro i j h; simp [scanUpAux] at h
  | succ fuel ih =>
    intro i j h
    simp only [scanUpAux] at h
    split at h
    case isTrue hg =>
      by_cases hsel : isSelectable showStorageStmts node i = true
      · rw [if_pos hsel] at h
        obtain rfl : i = j := by simpa using h
        exact ⟨hg.1, le_refl _, hg.2, hsel, fun k h1 h2 => absurd (lt_of_lt_of_le h1 h2) (lt_irrefl _)⟩
      · rw [if_neg hsel] at h
        obtain ⟨h0, h1, h2, h3, h4⟩ := ih h
        refine ⟨h0, by omega, hg.2, h3, ?_⟩
        intro k hk1 hk2
        rcases eq_or_lt_of_le hk2 with rfl | hk2'
        · exact Bool.not_eq_true _ ▸ hsel
        · exact h4 k hk1 (by omega)
    case isFalse hg => simp at h

/-- Totality of the downward scan body under sufficient fuel: starting
in range, the scan always finds a selectable index, because the terminator
is selectable. -/
lemma scanDownAux_total {showStorageStmts : Bool} {node : MirGraphNode} :
    ∀ {fuel : Nat} {i : Int},
      (((node.stmts.length : Int) + 1 - i).toNat ≤ fuel) → 0 ≤ i →
      i ≤ (node.stmts.length : Int) →
      ∃ j, scanDownAux showStorageStmts node fuel i = some j := by
  intro fuel
  induction fuel with
  | zero => intro i hf h0 hL; omega
  | succ fuel ih =>
    intro i hf h0 hL
    simp only [scanDownAux]
    rw [if_pos ⟨h0, hL⟩]
    by_cases hsel : isSelectable showStorageStmts node i = true
    · rw [if_pos hsel]; exact ⟨i, rfl⟩
    · rw [if_neg hsel]
      have hne : i ≠ (node.stmts.length : Int) := by
        intro e
        exact hsel (e ▸ isSelectable_terminator showStorageStmts node)
      exact ih (by omega) (by omega) (by omega)

/-- Soundness of `scanDown`. -/
lemma scanDown_some {showStorageStmts : Bool} {node : MirGraphNode} {i j : Int}
    (h : scanDown showStorageStmts node i = some j) :
    0 ≤ i ∧ i ≤ j ∧ j ≤ (node.stmts.length : Int) ∧
    isSelectable showStorageStmts node j = true ∧
    ∀ k : Int, i ≤ k → k < j → isSelectable showStorageStmts node k = false :=
  scanDownAux_some h

/-- Soundness of `scanUp`. -/
lemma scanUp_some {showStorageStmts : Bool} {node : MirGraphNode} {i j : Int}
    (h : scanUp showStorageStmts node i = some j) :
    0 ≤ j ∧ j ≤ i ∧ i ≤ (node.stmts.length : Int) ∧
    isSelectable showStorageStmts node j = true ∧
    ∀ k : Int, j < k → k ≤ i → isSelectable showStorageStmts node k = false :=
  scanUpAux_some h

/-- Totality of `scanDown` from an in-range start. -/
lemma scanDown_total (showStorageStmts : Bool) (node : MirGraphNode) {i : Int}
    (h0 : 0 ≤ i) (hL : i ≤ (node.stmts.length : Int)) :
    ∃ j, scanDown showStorageStmts node i = some j :=
  scanDownAux_total (le_refl _) h0 hL

/-- Recurrence of the downward scan: `scanDown` satisfies exactly the
source's `while (idx >= 0 && idx <= node.stmts.length)` loop equation. -/
lemma scanDown_eq (showStorageStmts : Bool) (node : MirGraphNode) (idx : Int) :
    scanDown showStorageStmts node idx =
      if 0 ≤ idx ∧ idx ≤ (node.stmts.length : Int) then
        if isSelectable showStorageStmts node idx then some idx
        else scanDown showStorageStmts node (idx + 1)
      else none := by
  unfold scanDown
  by_cases hg : 0 ≤ idx ∧ idx ≤ (node.stmts.length : Int)
  · have hfuel : (((node.stmts.length : Int) + 1) - idx).toNat
        = (((node.stmts.length : Int) + 1) - (idx + 1)).toNat + 1 := by omega
    rw [hfuel]
    simp only [scanDownAux]
  · rcases Nat.eq_zero_or_pos (((node.stmts.length : Int) + 1) - idx).toNat with h | h
    · rw [h]; simp [scanDownAux, hg]
    · obtain ⟨m, hm⟩ := Nat.exists_eq_succ_of_ne_zero (Nat.pos_iff_ne_zero.mp h)
      rw [hm]; simp [scanDownAux, hg]

/-- Recurrence of the upward scan. -/
lemma scanUp_eq (showStorageStmts : Bool) (node : MirGraphNode) (idx : Int) :
    scanUp showStorageStmts node idx =
      if 0 ≤ idx ∧ idx ≤ (node.stmts.length : Int) then
        if isSelectable showStorageStmts node idx then some idx
        else scanUp showStorageStmts node (idx - 1)
      else none := by
  unfold scanUp
  by_cases hg : 0 ≤ idx ∧ idx ≤ (node.stmts.length : Int)
  · have hfuel : (idx + 1).toNat = ((idx - 1) + 1).toNat + 1 := by omega
    rw [hfuel]
    simp only [scanUpAux]
  · rcases Nat.eq_zero_or_pos (idx + 1).toNat with h | h
    · rw [h]; simp [scanUpAux, hg]
    · obtain ⟨m, hm⟩ := Nat.exists_eq_succ_of_ne_zero (Nat.pos_iff_ne_zero.mp h)
      rw [hm]; simp [scanUpAux, hg]

/-- A `find?` hit that survives a `filter` is still the `find?` hit of the
filtered list. -/
lemma find?_filter_keep {α : Type} (q p : α → Bool) :
    ∀ (l : List α) (a : α), l.find? q = some a → p a = true →
      (l.filter p).find? q = some a := by
  intro l
  induction l with
  | nil => intro a h _; simp at h
  | cons x xs ih =>
    intro a h hp
    rw [List.find?] at h
    cases hqx : q x with
    | true =>
      rw [hqx] at h
      obtain rfl : x = a := by simpa using h
      rw [List.filter_cons, if_pos hp, List.find?, hqx]
    | false =>
      rw [hqx] at h
      rw [List.filter_cons]
      by_cases hpx : p x = true
      · rw [if_pos hpx, List.find?, hqx]
        exact ih a h hp
      · rw [if_neg hpx]
        exact ih a h hp

/-- Filtering a list twice with the same predicate equals filtering once. -/
lemma filter_idem {α : Type} (p : α → Bool) (l : List α) :
    (l.filter p).filter p = l.filter p := by
  rw [List.filter_filter]
  simp

/-- Characterization of a retained edge: both endpoint lookups succeed and
both endpoint blocks lie on the path. -/
lemma edgeOnPath_eq_true {nodes : List MirGraphNode} {path : List Nat}
    {e : MirGraphEdge} (h : edgeOnPath nodes path e = true) :
    ∃ s t : MirGraphNode,
      nodes.find? (fun n => n.id == e.source) = some s ∧
      nodes.find? (fun n => n.id == e.target) = some t ∧
      path.contains s.block = true ∧ path.contains t.block = true := by
  unfold edgeOnPath at h
  cases hs : nodes.find? (fun n => n.id == e.source) with
  | none => rw [hs] at h; simp at h
  | some s =>
    cases ht : nodes.find? (fun n => n.id == e.target) with
    | none => rw [hs, ht] at h; simp at h
    | some t =>
      rw [hs, ht] at h
      simp only [Bool.and_eq_true] at h
      exact ⟨s, t, rfl, rfl, h.1, h.2⟩

/-- An edge retained over `nodes` is also retained over the path-filtered
node list: the found endpoints themselves survive the node filter. -/
lemma edgeOnPath_filter {nodes : List MirGraphNode} {path : List Nat}
    {e : MirGraphEdge} (h : edgeOnPath nodes path e = true) :
    edgeOnPath (nodes.filter (fun node => path.contains node.block)) path e
      = true := by
  obtain ⟨s, t, hs, ht, hcs, hct⟩ := edgeOnPath_eq_true h
  unfold edgeOnPath
  rw [find?_filter_keep _ _ nodes s hs hcs, find?_filter_keep _ _ nodes t ht hct]
  simp only [Bool.and_eq_true]
  exact ⟨hcs, hct⟩

/-! Claim theorems. -/

/-- C1: the spec requires per-point overlay results to be applied in issue
order per key — an in-flight fetch superseded by a newer key must be
discarded on arrival. The code has no such guard: `setPathData(data)` runs
unconditionally on completion, so with requests issued for keys K1 then K2
and the K1 response arriving after the K2 response, the displayed bundle
ends up reflecting K1, violating the claimed guarantee. -/
theorem c1_completion_order_race :
    fetchPathData "foo" [[0, 2, 4]] 0 ⟨0, 0⟩ = FetchAction.request "foo" [0] 0 ∧
    fetchPathData "foo" [[0, 2, 4]] 0 ⟨2, 0⟩ = FetchAction.request "foo" [0, 2] 0 ∧
    FetchAction.request "foo" [0] 0 ≠ FetchAction.request "foo" [0, 2] 0 ∧
    onPathDataResponse
        (onPathDataResponse Option.none (Except.ok (bundleWithPcs ["data for K2"])))
        (Except.ok (bundleWithPcs ["data for K1"]))
      = some (bundleWithPcs ["data for K1"]) ∧
    bundleWithPcs ["data for K1"] ≠ bundleWithPcs ["data for K2"] :=
  ⟨rfl, rfl, by decide, rfl, by decide⟩

/-- C4: the spec requires a failed per-point fetch to clear the displayed
bundle to empty. The code's `catch` only logs (`console.error`) and performs
no state update, so the previous point's bundle stays resident: after a
failed fetch the displayed bundle is the stale one, not the empty one. -/
theorem c4_failed_fetch_keeps_stale :
    onPathDataResponse (some (bundleWithPcs ["stale bundle"])) (Except.error ())
      = some (bundleWithPcs ["stale bundle"]) ∧
    onPathDataResponse (some (bundleWithPcs ["stale bundle"])) (Except.error ())
      ≠ Option.none :=
  ⟨rfl, by decide⟩

/-- C5: when the selected path is valid but the current point's block does
not occur on it, `fetchPathData` clears the displayed bundle
(`setPathData(null)`) and returns without issuing a per-point request. -/
theorem c5_off_path_clears (fn : String) (paths : List (List Nat))
    (selectedPath : Nat) (p : CurrentPoint) (displayed : Option PathData)
    (hsp : selectedPath < paths.length)
    (hnot : (paths.getD selectedPath []).contains p.block = false) :
    fetchPathData fn paths selectedPath p = FetchAction.clear ∧
    applyFetchActionSync displayed (fetchPathData fn paths selectedPath p)
      = Option.none := by
  have h1 : fetchPathData fn paths selectedPath p = FetchAction.clear := by
    unfold fetchPathData
    rw [if_neg (by omega)]
    have hnot' : p.block ∉ paths[selectedPath]?.getD [] := by
      rw [← List.getD_eq_getElem?_getD]
      simpa using hnot
    simp [hnot']
  exact ⟨h1, by rw [h1]; rfl⟩

/-- C5 witness: the spec scenario — path `[0, 2, 4]`, current block `5`. -/
theorem c5_witness :
    fetchPathData "foo" [[0, 2, 4]] 0 ⟨5, 0⟩ = FetchAction.clear ∧
    applyFetchActionSync (some (bundleWithPcs ["stale bundle"]))
        (fetchPathData "foo" [[0, 2, 4]] 0 ⟨5, 0⟩)
      = Option.none :=
  c5_off_path_clears "foo" [[0, 2, 4]] 0 ⟨5, 0⟩
    (some (bundleWithPcs ["stale bundle"])) (by decide) (by decide)

/-- C6: in the three-block scenario with the storage filter off, stepping
down from `{block 1, stmt 0}` reaches `{1, 1}` then the terminator `{1, 2}`,
and one more step crosses to the next displayed block with forward
wraparound, entering at the first selectable position: `{2, 0}`. -/
theorem c6_scenario :
    step c6Nodes c6Nodes true .down ⟨1, 0⟩ = ⟨1, some 1⟩ ∧
    step c6Nodes c6Nodes true .down ⟨1, 1⟩ = ⟨1, some 2⟩ ∧
    step c6Nodes c6Nodes true .down ⟨1, 2⟩ = ⟨2, some 0⟩ := by
  decide

/-- C8 counterexample: with displayed graph `[block 0]` and current point at
the nonexistent block `5`, a step returns the point unchanged — it does not
fall back to the first block/position of the displayed graph. -/
theorem c8_counterexample :
    step [⟨"bb0", 0, ["a"], "return"⟩] [⟨"bb0", 0, ["a"], "return"⟩] true
        .down ⟨5, 0⟩ = ⟨5, some 0⟩ ∧
    (step [⟨"bb0", 0, ["a"], "return"⟩] [⟨"bb0", 0, ["a"], "return"⟩] true
        .down ⟨5, 0⟩).block ≠ 0 := by
  decide

/-- C8 amended: when the current point's block is absent from the full node
list, `handleKeyDown` returns `prevPoint` unchanged (a no-op), for every
direction and filter state. -/
theorem c8_missing_block_noop (nodes filteredNodes : List MirGraphNode)
    (showStorageStmts : Bool) (d : Dir) (p : CurrentPoint)
    (h : nodes.find? (fun n => n.block == p.block) = Option.none) :
    step nodes filteredNodes showStorageStmts d p = ⟨p.block, some p.stmt⟩ := by
  simp [step, h]

/-- C8 witness: a point at block `7`, absent from a one-block graph. -/
theorem c8_witness :
    step [⟨"bb0", 0, ["a"], "return"⟩] [⟨"bb0", 0, ["a"], "return"⟩] true
        .up ⟨7, 3⟩ = ⟨7, some 3⟩ :=
  c8_missing_block_noop [⟨"bb0", 0, ["a"], "return"⟩]
    [⟨"bb0", 0, ["a"], "return"⟩] true .up ⟨7, 3⟩ (by decide)

/-- C9: the within-block scan is total — for every block (zero statements
included), start index and direction it returns either `none` or a
selectable index within `[0, stmts.length]`, even when every statement
position is non-selectable. -/
theorem c9_scan_total (showStorageStmts : Bool) (node : MirGraphNode)
    (d : Dir) (start : Int) :
    getNextStmtIdx showStorageStmts node d start = Option.none ∨
    ∃ i : Int, getNextStmtIdx showStorageStmts node d start = some i ∧
      0 ≤ i ∧ i ≤ (node.stmts.length : Int) ∧
      isSelectable showStorageStmts node i = true := by
  cases d with
  | up =>
    simp only [getNextStmtIdx]
    cases h : scanUp showStorageStmts node (start - 1) with
    | none => exact Or.inl rfl
    | some j =>
      obtain ⟨h0, h1, h2, h3, -⟩ := scanUp_some h
      exact Or.inr ⟨j, rfl, h0, by omega, h3⟩
  | down =>
    simp only [getNextStmtIdx]
    cases h : scanDown showStorageStmts node (start + 1) with
    | none => exact Or.inl rfl
    | some j =>
      obtain ⟨h0, h1, h2, h3, -⟩ := scanDown_some h
      exact Or.inr ⟨j, rfl, by omega, h2, h3⟩

/-- C2 counterexample: with unwind hiding on and a path restriction,
filtering is not idempotent — the first pass keeps the non-unwind edge out
of the dropped `resume` block (its endpoints are looked up in the original
node list), but the second pass drops it because the lookup now runs over
the already-filtered nodes. -/
theorem c2_counterexample :
    filterNodesAndEdges (filterNodesAndEdges c2Nodes c2Edges c2Options).1
        (filterNodesAndEdges c2Nodes c2Edges c2Options).2 c2Options
      ≠ filterNodesAndEdges c2Nodes c2Edges c2Options := by
  decide

/-- C2 amended: `filterNodesAndEdges` is idempotent whenever unwind edges
are shown or no path restriction is set (the counterexample needs both the
unwind filter and the path filter active at once). -/
theorem c2_filter_idem (nodes : List MirGraphNode) (edges : List MirGraphEdge)
    (options : FilterOptions)
    (h : options.showUnwindEdges = true ∨ options.path = Option.none) :
    filterNodesAndEdges (filterNodesAndEdges nodes edges options).1
        (filterNodesAndEdges nodes edges options).2 options
      = filterNodesAndEdges nodes edges options := by
  obtain ⟨su, pa⟩ := options
  rcases h with h | h
  · replace h : su = true := h
    subst h
    cases pa with
    | none => simp [filterNodesAndEdges]
    | some path =>
      have hpair : filterNodesAndEdges nodes edges ⟨true, some path⟩
          = (nodes.filter (fun node => path.contains node.block),
             edges.filter (edgeOnPath nodes path)) := rfl
      rw [hpair]
      have hfst : (filterNodesAndEdges
            (nodes.filter (fun node => path.contains node.block))
            (edges.filter (edgeOnPath nodes path)) ⟨true, some path⟩).1
          = ((nodes.filter (fun node => path.contains node.block)).filter
              (fun node => path.contains node.block)) := rfl
      have hsnd : (filterNodesAndEdges
            (nodes.filter (fun node => path.contains node.block))
            (edges.filter (edgeOnPath nodes path)) ⟨true, some path⟩).2
          = ((edges.filter (edgeOnPath nodes path)).filter
              (edgeOnPath (nodes.filter (fun node => path.contains node.block))
                path)) := rfl
      have h1 := filter_idem (fun node => path.contains node.block) nodes
      have h2 : (edges.filter (edgeOnPath nodes path)).filter
            (edgeOnPath (nodes.filter (fun node => path.contains node.block))
              path)
          = edges.filter (edgeOnPath nodes path) := by
        apply List.filter_eq_self.mpr
        intro e he
        exact edgeOnPath_filter (List.mem_filter.mp he).2
      exact Prod.ext (hfst.trans h1) (hsnd.trans h2)
  · replace h : pa = Option.none := h
    subst h
    cases su with
    | true => simp [filterNodesAndEdges]
    | false =>
      have hpair : filterNodesAndEdges nodes edges ⟨false, Option.none⟩
          = (nodes.filter (fun node => node.terminator != "resume"),
             edges.filter (fun edge => edge.label != "unwind")) := rfl
      rw [hpair]
      exact Prod.ext (filter_idem _ nodes) (filter_idem _ edges)

/-- C2 witness: a one-block graph filtered twice under `showUnwindEdges`
with a path restriction. -/
theorem c2_witness :
    filterNodesAndEdges
        (filterNodesAndEdges [⟨"x0", 0, [], "return"⟩] [⟨"x0", "x0", "goto"⟩]
          ⟨true, some [0]⟩).1
        (filterNodesAndEdges [⟨"x0", 0, [], "return"⟩] [⟨"x0", "x0", "goto"⟩]
          ⟨true, some [0]⟩).2 ⟨true, some [0]⟩
      = filterNodesAndEdges [⟨"x0", 0, [], "return"⟩] [⟨"x0", "x0", "goto"⟩]
          ⟨true, some [0]⟩ :=
  c2_filter_idem [⟨"x0", 0, [], "return"⟩] [⟨"x0", "x0", "goto"⟩]
    ⟨true, some [0]⟩ (Or.inl rfl)

/-- C3 counterexample: with unwind hiding on and no path restriction, the
`resume` node is dropped but its incoming non-unwind edge is kept, so the
output contains an edge whose target is absent from the output node list. -/
theorem c3_counterexample :
    ¬ ∀ e ∈ (filterNodesAndEdges c3Nodes c3Edges c3Options).2,
        (∃ n ∈ (filterNodesAndEdges c3Nodes c3Edges c3Options).1,
          n.id = e.source) ∧
        (∃ n ∈ (filterNodesAndEdges c3Nodes c3Edges c3Options).1,
          n.id = e.target) := by
  decide

/-- C3 amended: when the path restriction is active and unwind edges are
shown, every retained edge has both endpoints present in the output node
list; with unwind hiding on this fails, because a node dropped for its
`resume` terminator can keep a retained non-unwind edge. -/
theorem c3_endpoints_on_path (nodes : List MirGraphNode)
    (edges : List MirGraphEdge) (path : List Nat) (e : MirGraphEdge)
    (he : e ∈ (filterNodesAndEdges nodes edges ⟨true, some path⟩).2) :
    (∃ n ∈ (filterNodesAndEdges nodes edges ⟨true, some path⟩).1,
      n.id = e.source) ∧
    (∃ n ∈ (filterNodesAndEdges nodes edges ⟨true, some path⟩).1,
      n.id = e.target) := by
  have hsnd : (filterNodesAndEdges nodes edges ⟨true, some path⟩).2
      = edges.filter (edgeOnPath nodes path) := rfl
  have hfst : (filterNodesAndEdges nodes edges ⟨true, some path⟩).1
      = nodes.filter (fun node => path.contains node.block) := rfl
  rw [hsnd] at he
  rw [hfst]
  obtain ⟨-, hpred⟩ := List.mem_filter.mp he
  obtain ⟨s, t, hs, ht, hcs, hct⟩ := edgeOnPath_eq_true hpred
  constructor
  · exact ⟨s, List.mem_filter.mpr ⟨List.mem_of_find?_eq_some hs, hcs⟩,
      by simpa using List.find?_some hs⟩
  · exact ⟨t, List.mem_filter.mpr ⟨List.mem_of_find?_eq_some ht, hct⟩,
      by simpa using List.find?_some ht⟩

/-- C3 witness: a retained two-block path edge with both endpoints present. -/
theorem c3_witness :
    (∃ n ∈ (filterNodesAndEdges
        [⟨"y0", 0, [], "return"⟩, ⟨"y1", 1, [], "return"⟩]
        [⟨"y0", "y1", "goto"⟩] ⟨true, some [0, 1]⟩).1, n.id = "y0") ∧
    (∃ n ∈ (filterNodesAndEdges
        [⟨"y0", 0, [], "return"⟩, ⟨"y1", 1, [], "return"⟩]
        [⟨"y0", "y1", "goto"⟩] ⟨true, some [0, 1]⟩).1, n.id = "y1") :=
  c3_endpoints_on_path
    [⟨"y0", 0, [], "return"⟩, ⟨"y1", 1, [], "return"⟩]
    [⟨"y0", "y1", "goto"⟩] [0, 1] ⟨"y0", "y1", "goto"⟩ (by decide)

/-- C7 counterexample: starting on a non-selectable position (a storage
statement with the storage filter on), stepping down then up does not return
to the start — it lands on the selectable position below — even though
neither step crossed a block boundary. -/
theorem c7_counterexample :
    getNextStmtIdx false c7Node .down 1 = some 2 ∧
    getNextStmtIdx false c7Node .up 2 = some 0 ∧
    step [c7Node] [c7Node] false .down ⟨0, 1⟩ = ⟨0, some 2⟩ ∧
    step [c7Node] [c7Node] false .up ⟨0, 2⟩ = ⟨0, some 0⟩ ∧
    (⟨0, some 0⟩ : NextPoint) ≠ ⟨0, some 1⟩ := by
  decide

/-- C7 amended: local reversibility holds whenever neither step crosses a
block boundary and, additionally, the starting position is itself selectable
under the current filter configuration: a step in direction `d` followed by
a step in the opposite direction returns to the starting point. -/
theorem c7_step_reversible (nodes filteredNodes : List MirGraphNode)
    (showStorageStmts : Bool) (d : Dir) (p : CurrentPoint)
    (node : MirGraphNode) (s s' : Int)
    (hfind : nodes.find? (fun n => n.block == p.block) = some node)
    (hsel : isSelectable showStorageStmts node p.stmt = true)
    (h1 : getNextStmtIdx showStorageStmts node d p.stmt = some s)
    (h2 : getNextStmtIdx showStorageStmts node d.opposite s = some s') :
    step nodes filteredNodes showStorageStmts d p = ⟨p.block, some s⟩ ∧
    step nodes filteredNodes showStorageStmts d.opposite ⟨p.block, s⟩
      = ⟨p.block, some p.stmt⟩ := by
  have hs' : s' = p.stmt := by
    cases d with
    | down =>
      simp only [getNextStmtIdx, Dir.opposite] at h1 h2
      obtain ⟨hd0, hd1, hd2, hdsel, hdgap⟩ := scanDown_some h1
      obtain ⟨hu0, hu1, hu2, husel, hugap⟩ := scanUp_some h2
      rcases lt_trichotomy s' p.stmt with hlt | heq | hgt
      · have hfalse := hugap p.stmt hlt (by omega)
        rw [hfalse] at hsel
        simp at hsel
      · exact heq
      · have hfalse := hdgap s' (by omega) (by omega)
        rw [hfalse] at husel
        simp at husel
    | up =>
      simp only [getNextStmtIdx, Dir.opposite] at h1 h2
      obtain ⟨hu0, hu1, hu2, husel, hugap⟩ := scanUp_some h1
      obtain ⟨hd0, hd1, hd2, hdsel, hdgap⟩ := scanDown_some h2
      rcases lt_trichotomy s' p.stmt with hlt | heq | hgt
      · have hfalse := hugap s' (by omega) (by omega)
        rw [hfalse] at hdsel
        simp at hdsel
      · exact heq
      · have hfalse := hdgap p.stmt (by omega) hgt
        rw [hfalse] at hsel
        simp at hsel
  constructor
  · simp [step, hfind, h1]
  · rw [← hs']
    simp [step, hfind, h2]

/-- C7 witness: a two-statement block with the storage filter off, stepping
down from position `0` and back up from position `1`. -/
theorem c7_witness :
    step [⟨"w0", 0, ["a", "b"], "return"⟩] [⟨"w0", 0, ["a", "b"], "return"⟩]
        true .down ⟨0, 0⟩ = ⟨0, some 1⟩ ∧
    step [⟨"w0", 0, ["a", "b"], "return"⟩] [⟨"w0", 0, ["a", "b"], "return"⟩]
        true .up ⟨0, 1⟩ = ⟨0, some 0⟩ :=
  c7_step_reversible [⟨"w0", 0, ["a", "b"], "return"⟩]
    [⟨"w0", 0, ["a", "b"], "return"⟩] true .down ⟨0, 0⟩
    ⟨"w0", 0, ["a", "b"], "return"⟩ 1 0
    (by decide) (by decide) (by decide) (by decide)

/-- C10: the terminator position is selectable under every filter
configuration, the downward entry scan from `-1` always returns an index,
and every up/down step taken from a point whose block exists in the full
node list — with a non-empty displayed node list — yields a point whose
`stmt` is an integer in `[0, statement count]` of the resulting block, even
when the starting `stmt` is out of range for its block. -/
theorem c10_step_in_range (nodes filteredNodes : List MirGraphNode)
    (showStorageStmts ss' : Bool) (d : Dir) (p : CurrentPoint)
    (node node' : MirGraphNode)
    (hfind : nodes.find? (fun n => n.block == p.block) = some node)
    (hne : filteredNodes ≠ []) :
    isSelectable ss' node' (node'.stmts.length : Int) = true ∧
    (getNextStmtIdx ss' node' .down (-1)).isSome = true ∧
    ∃ res : MirGraphNode, (res = node ∨ res ∈ filteredNodes) ∧
      (step nodes filteredNodes showStorageStmts d p).block = res.block ∧
      ∃ k : Int, (step nodes filteredNodes showStorageStmts d p).stmt = some k ∧
        0 ≤ k ∧ k ≤ (res.stmts.length : Int) := by
  have hterm := isSelectable_terminator ss' node'
  have hentry : (getNextStmtIdx ss' node' .down (-1)).isSome = true := by
    obtain ⟨j, hj⟩ := scanDown_total ss' node' (le_refl 0) (by omega)
    simp [getNextStmtIdx, hj]
  refine ⟨hterm, hentry, ?_⟩
  have hlen : 0 < (filteredNodes.length : Int) := by
    exact_mod_cast List.length_pos.mpr hne
  cases hg : getNextStmtIdx showStorageStmts node d p.stmt with
  | some k =>
    have hstep : step nodes filteredNodes showStorageStmts d p
        = ⟨p.block, some k⟩ := by
      simp [step, hfind, hg]
    have hbounds : 0 ≤ k ∧ k ≤ (node.stmts.length : Int) := by
      cases d with
      | up =>
        simp only [getNextStmtIdx] at hg
        obtain ⟨hu0, hu1, hu2, -, -⟩ := scanUp_some hg
        exact ⟨hu0, by omega⟩
      | down =>
        simp only [getNextStmtIdx] at hg
        obtain ⟨hd0, hd1, hd2, -, -⟩ := scanDown_some hg
        exact ⟨by omega, hd2⟩
    have hblock : node.block = p.block := by
      have := List.find?_some hfind
      simpa using this
    exact ⟨node, Or.inl rfl, by rw [hstep, hblock], k, by rw [hstep],
      hbounds.1, hbounds.2⟩
  | none =>
    cases d with
    | down =>
      set i0 := filteredNodes.findIdx (fun n => n.block == p.block) with hi0
      set c : Int := if i0 = filteredNodes.length then -1 else (i0 : Int)
        with hc
      set m := ((c + 1) % (filteredNodes.length : Int)).toNat with hm
      have hmlt : m < filteredNodes.length := by
        have hnn : 0 ≤ (c + 1) % (filteredNodes.length : Int) :=
          Int.emod_nonneg _ (by omega)
        have hlt : (c + 1) % (filteredNodes.length : Int)
            < (filteredNodes.length : Int) := Int.emod_lt_of_pos _ hlen
        omega
      set data := filteredNodes.getD m defaultNode with hdata
      have hstep : step nodes filteredNodes showStorageStmts .down p
          = ⟨data.block, getNextStmtIdx showStorageStmts data .down (-1)⟩ := by
        simp only [step, hfind, hg]
      have hdmem : data ∈ filteredNodes := by
        have hgd : filteredNodes.getD m defaultNode = filteredNodes[m] := by
          simp [List.getD_eq_getElem?_getD, List.getElem?_eq_getElem hmlt]
        rw [hdata, hgd]
        exact List.getElem_mem hmlt
      obtain ⟨j, hj⟩ := scanDown_total showStorageStmts data (le_refl 0)
        (by omega)
      obtain ⟨-, -, hj2, -, -⟩ := scanDown_some hj
      refine ⟨data, Or.inr hdmem, by rw [hstep], j, ?_, ?_, hj2⟩
      · rw [hstep]
        simp [getNextStmtIdx, hj]
      · obtain ⟨-, h0j, -, -, -⟩ := scanDown_some hj
        exact h0j
    | up =>
      set i0 := filteredNodes.findIdx (fun n => n.block == p.block) with hi0
      set c : Int := if i0 = filteredNodes.length then -1 else (i0 : Int)
        with hc
      set m := ((c - 1 + (filteredNodes.length : Int))
          % (filteredNodes.length : Int)).toNat with hm
      have hmlt : m < filteredNodes.length := by
        have hnn : 0 ≤ (c - 1 + (filteredNodes.length : Int))
            % (filteredNodes.length : Int) := Int.emod_nonneg _ (by omega)
        have hlt : (c - 1 + (filteredNodes.length : Int))
            % (filteredNodes.length : Int) < (filteredNodes.length : Int) :=
          Int.emod_lt_of_pos _ hlen
        omega
      set data := filteredNodes.getD m defaultNode with hdata
      have hstep : step nodes filteredNodes showStorageStmts .up p
          = ⟨data.block, some (data.stmts.length : Int)⟩ := by
        simp only [step, hfind, hg]
      have hdmem : data ∈ filteredNodes := by
        have hgd : filteredNodes.getD m defaultNode = filteredNodes[m] := by
          simp [List.getD_eq_getElem?_getD, List.getElem?_eq_getElem hmlt]
        rw [hdata, hgd]
        exact List.getElem_mem hmlt
      exact ⟨data, Or.inr hdmem, by rw [hstep],
        (data.stmts.length : Int), by rw [hstep], by omega, le_refl _⟩

/-- C10 witness: a one-block displayed graph stepped down from its
terminator, plus a storage-only block checked for terminator selectability
and entry-scan success. -/
theorem c10_witness :
    isSelectable false ⟨"w1", 1, ["StorageLive(z)"], "goto"⟩ 1 = true ∧
    (getNextStmtIdx false ⟨"w1", 1, ["StorageLive(z)"], "goto"⟩ .down
        (-1)).isSome = true ∧
    ∃ res : MirGraphNode,
      (res = ⟨"w2", 0, ["a"], "return"⟩ ∨ res ∈ [⟨"w2", 0, ["a"], "return"⟩]) ∧
      (step [⟨"w2", 0, ["a"], "return"⟩] [⟨"w2", 0, ["a"], "return"⟩] false
          .down ⟨0, 1⟩).block = res.block ∧
      ∃ k : Int,
        (step [⟨"w2", 0, ["a"], "return"⟩] [⟨"w2", 0, ["a"], "return"⟩] false
            .down ⟨0, 1⟩).stmt = some k ∧
        0 ≤ k ∧ k ≤ (res.stmts.length : Int) :=
  c10_step_in_range [⟨"w2", 0, ["a"], "return"⟩] [⟨"w2", 0, ["a"], "return"⟩]
    false false .down ⟨0, 1⟩ ⟨"w2", 0, ["a"], "return"⟩
    ⟨"w1", 1, ["StorageLive(z)"], "goto"⟩ (by decide) (by decide)

end PCS
